import Mathlib

/-!
Verification of the `postgres_content` block-to-row projection pipeline and the
`room` protocol value objects of actaboards-core.

The relational tables are modelled as association lists from the unique id
column to the remaining row fields.  SQL `INSERT ... ON CONFLICT (id) DO UPDATE
SET ...` becomes `upsertRow`, and `UPDATE ... WHERE id = k` becomes `updateRow`.
Handlers, the operation router (`on_block`) and the identifier resolver are
translated directly from `postgres_content_plugin.cpp`; the protocol validation
comes from `room.cpp`.
-/

/-- Row of `indexer_content_cards` (minus the `content_card_id` key, which is
the association-list key, and the DB-internal serial/created_at columns). -/
structure ContentRow where
  subject_account : String
  hash : String
  url : String
  type : String
  description : String
  content_key : String
  storage_data : String
  block_num : Nat
  block_time : Nat
  trx_id : String
  operation_type : Nat
  is_removed : Bool
deriving DecidableEq, Repr

/-- Row of `indexer_permissions` (minus the `permission_id` key). -/
structure PermRow where
  subject_account : String
  operator_account : String
  permission_type : String
  object_id : String
  content_key : String
  block_num : Nat
  block_time : Nat
  trx_id : String
  operation_type : Nat
  is_removed : Bool
deriving DecidableEq, Repr

/-- Payload of `content_card_create_operation` as consumed by the plugin. -/
structure ContentCardCreateOp where
  subject_account : String
  hash : String
  url : String
  type : String
  description : String
  content_key : String
  storage_data : String
deriving DecidableEq, Repr

/-- Payload of `content_card_update_operation` as consumed by the plugin. -/
structure ContentCardUpdateOp where
  subject_account : String
  hash : String
  url : String
  type : String
  description : String
  content_key : String
  storage_data : String
deriving DecidableEq, Repr

/-- Payload of `content_card_remove_operation` as consumed by the plugin. -/
structure ContentCardRemoveOp where
  content_id : String
deriving DecidableEq, Repr

/-- Payload of `permission_create_operation` as consumed by the plugin. -/
structure PermissionCreateOp where
  subject_account : String
  operator_account : String
  permission_type : String
  object_id : Option String
  content_key : String
deriving DecidableEq, Repr

/-- One element of `permission_create_many_operation::permissions`. -/
structure PermissionSubOp where
  operator_account : String
  permission_type : String
  object_id : Option String
  content_key : String
deriving DecidableEq, Repr

/-- Payload of `permission_create_many_operation` as consumed by the plugin. -/
structure PermissionCreateManyOp where
  subject_account : String
  permissions : List PermissionSubOp
deriving DecidableEq, Repr

/-- Payload of `permission_remove_operation` as consumed by the plugin. -/
structure PermissionRemoveOp where
  permission_id : String
deriving DecidableEq, Repr

/-- The operation variant, tagged as by `op.which()`.  Discriminants handled by
the router are 41..45 and 64; `other` stands for every remaining discriminant. -/
inductive Operation where
  | content_card_create (op : ContentCardCreateOp)       -- which() = 41
  | content_card_update (op : ContentCardUpdateOp)       -- which() = 42
  | content_card_remove (op : ContentCardRemoveOp)       -- which() = 43
  | permission_create (op : PermissionCreateOp)          -- which() = 44
  | permission_remove (op : PermissionRemoveOp)          -- which() = 45
  | permission_create_many (op : PermissionCreateManyOp) -- which() = 64
  | other (which : Nat)
deriving DecidableEq, Repr

/-- The discriminated `operation_result`: void_result(0), object_id_type(1),
asset(2), generic_operation_result(3), and any future variant. -/
inductive OperationResult where
  | void_result
  | object_id (id : String)
  | asset_result (amount : Int)
  | generic_result (new_objects : List String)
  | other (which : Nat)
deriving DecidableEq, Repr

/-- One applied operation from `db.get_applied_operations()`: payload, result
and transaction-in-block index. -/
structure AppliedOperation where
  op : Operation
  result : OperationResult
  trx_in_block : Nat
deriving DecidableEq, Repr

/-- The finalized block: number, timestamp (seconds since epoch) and the ids of
its transactions in order (`b.transactions[i].id().str()`). -/
structure SignedBlock where
  block_num : Nat
  timestamp : Nat
  transactions : List String
deriving DecidableEq, Repr

/-- A projected table: association list from the unique id column to the row. -/
abbrev Table (ρ : Type) : Type := List (String × ρ)

/-- The two projected tables. -/
structure State where
  content_cards : Table ContentRow
  permissions : Table PermRow

/-- Look up the row with the given id (first match). -/
def findRow {ρ : Type} : Table ρ → String → Option ρ
  | [], _ => none
  | (k, r) :: rest, key => if k = key then some r else findRow rest key

/-- Model of `UPDATE ... SET ... WHERE id = key`: rewrite the matching row, leave the
rest; no row is inserted. -/
def updateRow {ρ : Type} (t : Table ρ) (key : String) (f : ρ → ρ) : Table ρ :=
  t.map (fun p => (p.1, if p.1 = key then f p.2 else p.2))

/-- Model of `INSERT ... ON CONFLICT (id) DO UPDATE SET ...`: if a row with the key
exists the conflict clause `onConf` rewrites it, otherwise the fresh row is
inserted. -/
def upsertRow {ρ : Type} (t : Table ρ) (key : String) (fresh : ρ) (onConf : ρ → ρ) : Table ρ :=
  if (findRow t key).isSome then updateRow t key onConf
  else t ++ [(key, fresh)]

/-- Digits of `n` in base 10, most significant first; `fuel` bounds recursion
depth structurally (any `fuel ≥ n` gives the true digits). -/
def natDigitsF : Nat → Nat → List Nat
  | 0, n => [n % 10]
  | fuel + 1, n => if n < 10 then [n] else natDigitsF fuel (n / 10) ++ [n % 10]

/-- Decimal digits of `n`, most significant first. -/
def natDigits (n : Nat) : List Nat := natDigitsF n n

/-- Decimal rendering of a natural number, modelling C++ `std::to_string`. -/
def natToString (n : Nat) : String := String.mk ((natDigits n).map Nat.digitChar)

/-- Fold decimal digits back into the number they denote. -/
def undigits (l : List Nat) : Nat := l.foldl (fun a d => 10 * a + d) 0

/-- First element of a list, or the default when the list is exhausted (the
iterator test `obj_it != new_objects.end()`). -/
def headOr {α : Type} (l : List α) (d : α) : α :=
  match l with
  | o :: _ => o
  | [] => d

/-- Identifier fallback used by the single-create handlers:
`object_id.empty() ? ("pending-" + trx_id) : object_id`. -/
def fallbackId (object_id trx_id : String) : String :=
  if object_id = "" then "pending-" ++ trx_id else object_id

/-- Placeholder for the `i`-th item of a bulk permission create:
`"pending-" + trx_id + "-" + std::to_string(i)`. -/
def bulkPlaceholder (trx_id : String) (i : Nat) : String :=
  "pending-" ++ trx_id ++ "-" ++ natToString i

/-- Model of `op.object_id.valid() ? std::string(object_id_type(*op.object_id)) : ""`. -/
def refObjectId (o : Option String) : String := o.getD ""

/-- Resolver `get_object_id_from_result`: the single identifier when the result is the
`object_id_type` variant (`which() == 1`), the empty string otherwise. -/
def get_object_id_from_result : OperationResult → String
  | .object_id i => i
  | _ => ""

/-- Extraction of `generic_operation_result::new_objects` performed inline in
`on_block` for the bulk-create dispatch (`result.which() == 3`). -/
def newObjectsFromResult : OperationResult → List String
  | .generic_result ids => ids
  | _ => []

/-- The ordered sequence of newly assigned identifiers a result yields across
the two extraction sites: the single identifier through
`get_object_id_from_result` for the `object_id_type` variant, the embedded set
through the `generic_operation_result` extraction otherwise. -/
def resolvedIds (r : OperationResult) : List String :=
  match r with
  | .object_id _ => [get_object_id_from_result r]
  | _ => newObjectsFromResult r

/-- Handler `handle_content_card_create`: insert the full row with operation type 41
and `is_removed = FALSE`; on conflict overwrite the mutable content fields. -/
def handle_content_card_create (op : ContentCardCreateOp) (block_num block_time : Nat)
    (trx_id object_id : String) (t : Table ContentRow) : Table ContentRow :=
  let content_card_id := fallbackId object_id trx_id
  upsertRow t content_card_id
    { subject_account := op.subject_account, hash := op.hash, url := op.url, type := op.type,
      description := op.description, content_key := op.content_key,
      storage_data := op.storage_data, block_num := block_num, block_time := block_time,
      trx_id := trx_id, operation_type := 41, is_removed := false }
    (fun r => { r with
        hash := op.hash, url := op.url, type := op.type, description := op.description,
        content_key := op.content_key, storage_data := op.storage_data })

/-- Handler `handle_content_card_update`: insert the full row with operation type 42;
on conflict overwrite the mutable content fields together with `block_num`,
`block_time` and `operation_type = 42` (the conflict clause lists no other
column). -/
def handle_content_card_update (op : ContentCardUpdateOp) (block_num block_time : Nat)
    (trx_id object_id : String) (t : Table ContentRow) : Table ContentRow :=
  let content_card_id := fallbackId object_id trx_id
  upsertRow t content_card_id
    { subject_account := op.subject_account, hash := op.hash, url := op.url, type := op.type,
      description := op.description, content_key := op.content_key,
      storage_data := op.storage_data, block_num := block_num, block_time := block_time,
      trx_id := trx_id, operation_type := 42, is_removed := false }
    (fun r => { r with
        hash := op.hash, url := op.url, type := op.type, description := op.description,
        content_key := op.content_key, storage_data := op.storage_data,
        block_num := block_num, block_time := block_time, operation_type := 42 })

/-- Handler `handle_content_card_remove`: `UPDATE ... SET is_removed = TRUE, block_num,
block_time, operation_type = 43 WHERE content_card_id = ...`. -/
def handle_content_card_remove (op : ContentCardRemoveOp) (block_num block_time : Nat)
    (t : Table ContentRow) : Table ContentRow :=
  updateRow t op.content_id
    (fun r => { r with
        is_removed := true, block_num := block_num, block_time := block_time,
        operation_type := 43 })

/-- Handler `handle_permission_create`: insert the full row with operation type 44; on
conflict overwrite `permission_type` and `content_key` only. -/
def handle_permission_create (op : PermissionCreateOp) (block_num block_time : Nat)
    (trx_id new_object_id : String) (t : Table PermRow) : Table PermRow :=
  let permission_id := fallbackId new_object_id trx_id
  upsertRow t permission_id
    { subject_account := op.subject_account, operator_account := op.operator_account,
      permission_type := op.permission_type, object_id := refObjectId op.object_id,
      content_key := op.content_key, block_num := block_num, block_time := block_time,
      trx_id := trx_id, operation_type := 44, is_removed := false }
    (fun r => { r with
        permission_type := op.permission_type, content_key := op.content_key })

/-- The per-item loop of `handle_permission_create_many`: the iterator over the
resolved identifier set is consumed positionally (`objs`), `i` is the current
item index, and once the set is exhausted item `i` gets
`"pending-" + trx_id + "-" + std::to_string(i)`. -/
def permCreateManyGo (subject_account : String) (block_num block_time : Nat) (trx_id : String) :
    List PermissionSubOp → List String → Nat → Table PermRow → Table PermRow
  | [], _, _, t => t
  | perm :: rest, objs, i, t =>
    let permission_id := headOr objs (bulkPlaceholder trx_id i)
    let t' := upsertRow t permission_id
      { subject_account := subject_account, operator_account := perm.operator_account,
        permission_type := perm.permission_type, object_id := refObjectId perm.object_id,
        content_key := perm.content_key, block_num := block_num, block_time := block_time,
        trx_id := trx_id, operation_type := 64, is_removed := false }
      (fun r => { r with
          permission_type := perm.permission_type, content_key := perm.content_key })
    permCreateManyGo subject_account block_num block_time trx_id rest objs.tail (i + 1) t'

/-- Handler `handle_permission_create_many`: one insert per batch item, in array order,
pairing each item with the next identifier of the resolved set while it lasts. -/
def handle_permission_create_many (op : PermissionCreateManyOp) (block_num block_time : Nat)
    (trx_id : String) (new_objects : List String) (t : Table PermRow) : Table PermRow :=
  permCreateManyGo op.subject_account block_num block_time trx_id op.permissions new_objects 0 t

/-- Handler `handle_permission_remove`: `UPDATE ... SET is_removed = TRUE, block_num,
block_time, operation_type = 45 WHERE permission_id = ...`. -/
def handle_permission_remove (op : PermissionRemoveOp) (block_num block_time : Nat)
    (t : Table PermRow) : Table PermRow :=
  updateRow t op.permission_id
    (fun r => { r with
        is_removed := true, block_num := block_num, block_time := block_time,
        operation_type := 45 })

/-- Transaction-id resolution in `on_block`: the id of the `trx_in_block`-th
transaction of the block, or the empty string when out of range. -/
def trxIdOf (b : SignedBlock) (trx_in_block : Nat) : String :=
  match b.transactions.get? trx_in_block with
  | some tid => tid
  | none => ""

/-- The dispatch performed for one applied operation in `on_block`'s loop. -/
def applyOperation (b : SignedBlock) (aop : AppliedOperation) (s : State) : State :=
  let trx_id := trxIdOf b aop.trx_in_block
  let created_object_id := get_object_id_from_result aop.result
  match aop.op with
  | .content_card_create op =>
    let t := handle_content_card_create op b.block_num b.timestamp trx_id created_object_id
      s.content_cards
    { s with content_cards := t }
  | .content_card_update op =>
    let t := handle_content_card_update op b.block_num b.timestamp trx_id created_object_id
      s.content_cards
    { s with content_cards := t }
  | .content_card_remove op =>
    let t := handle_content_card_remove op b.block_num b.timestamp s.content_cards
    { s with content_cards := t }
  | .permission_create op =>
    let t := handle_permission_create op b.block_num b.timestamp trx_id created_object_id
      s.permissions
    { s with permissions := t }
  | .permission_remove op =>
    let t := handle_permission_remove op b.block_num b.timestamp s.permissions
    { s with permissions := t }
  | .permission_create_many op =>
    let t := handle_permission_create_many op b.block_num b.timestamp trx_id
      (newObjectsFromResult aop.result) s.permissions
    { s with permissions := t }
  | .other _ => s

/-- Projector `on_block` (with a live connection): return immediately below the start
block, otherwise fold the applied operations in order, skipping invalid
(`!o_op.valid()`) entries. -/
def on_block (start_block : Nat) (b : SignedBlock)
    (hist : List (Option AppliedOperation)) (s : State) : State :=
  if b.block_num < start_block then s
  else
    hist.foldl
      (fun acc o =>
        match o with
        | none => acc
        | some aop => applyOperation b aop acc)
      s

/-- Executability check of each remove handled while projecting `hist`: a
content-card or permission remove must find a row with its id in the table at
the moment it is applied.  All other operations pass. -/
def removesOkOp (s : State) (aop : AppliedOperation) : Bool :=
  match aop.op with
  | .content_card_remove op => (findRow s.content_cards op.content_id).isSome
  | .permission_remove op => (findRow s.permissions op.permission_id).isSome
  | _ => true

/-- Every remove applied while projecting `hist` from state `s` finds an
existing row with its id. -/
def removesOk (b : SignedBlock) : State → List (Option AppliedOperation) → Bool
  | _, [] => true
  | s, none :: rest => removesOk b s rest
  | s, some aop :: rest => removesOkOp s aop && removesOk b (applyOperation b aop s) rest

/-- The `asset` value object: only its `amount` matters to validation. -/
structure asset where
  amount : Int
deriving DecidableEq, Repr

/-- Operation `room_create_operation`: fee, owner, room name and encrypted room key. -/
structure room_create_operation where
  fee : asset
  owner : Nat
  name : String
  room_key : String
deriving DecidableEq, Repr

/-- Validation `room_create_operation::validate()`: the `FC_ASSERT` chain, in source
order; an `error` value models the thrown exception. -/
def room_create_validate (op : room_create_operation) : Except String Unit :=
  if ¬ (0 ≤ op.fee.amount) then .error "fee.amount >= 0"
  else if op.name = "" then .error "Room name cannot be empty"
  else if ¬ (op.name.length ≤ 256) then .error "Room name too long (max 256 characters)"
  else if op.room_key = "" then .error "Room key cannot be empty"
  else .ok ()

/-- A masked patch on a content-card row: `some v` overwrites the column with
`v`, `none` keeps the existing value.  Every `DO UPDATE SET` clause and every
soft-delete `UPDATE` of the plugin is a patch of this form. -/
structure CCPatch where
  subject_account : Option String := none
  hash : Option String := none
  url : Option String := none
  type : Option String := none
  description : Option String := none
  content_key : Option String := none
  storage_data : Option String := none
  block_num : Option Nat := none
  block_time : Option Nat := none
  trx_id : Option String := none
  operation_type : Option Nat := none
  is_removed : Option Bool := none
deriving DecidableEq, Repr

/-- Apply a content-card patch columnwise. -/
def CCPatch.apply (p : CCPatch) (r : ContentRow) : ContentRow :=
  ⟨p.subject_account.getD r.subject_account, p.hash.getD r.hash, p.url.getD r.url,
   p.type.getD r.type, p.description.getD r.description, p.content_key.getD r.content_key,
   p.storage_data.getD r.storage_data, p.block_num.getD r.block_num,
   p.block_time.getD r.block_time, p.trx_id.getD r.trx_id,
   p.operation_type.getD r.operation_type, p.is_removed.getD r.is_removed⟩

/-- Compose content-card patches, the first (outer) one winning. -/
def CCPatch.comp (q p : CCPatch) : CCPatch :=
  ⟨q.subject_account <|> p.subject_account, q.hash <|> p.hash, q.url <|> p.url,
   q.type <|> p.type, q.description <|> p.description, q.content_key <|> p.content_key,
   q.storage_data <|> p.storage_data, q.block_num <|> p.block_num,
   q.block_time <|> p.block_time, q.trx_id <|> p.trx_id,
   q.operation_type <|> p.operation_type, q.is_removed <|> p.is_removed⟩

/-- The identity content-card patch. -/
def ccPid : CCPatch := {}

/-- A masked patch on a permission row. -/
structure PermPatch where
  subject_account : Option String := none
  operator_account : Option String := none
  permission_type : Option String := none
  object_id : Option String := none
  content_key : Option String := none
  block_num : Option Nat := none
  block_time : Option Nat := none
  trx_id : Option String := none
  operation_type : Option Nat := none
  is_removed : Option Bool := none
deriving DecidableEq, Repr

/-- Apply a permission patch columnwise. -/
def PermPatch.apply (p : PermPatch) (r : PermRow) : PermRow :=
  ⟨p.subject_account.getD r.subject_account, p.operator_account.getD r.operator_account,
   p.permission_type.getD r.permission_type, p.object_id.getD r.object_id,
   p.content_key.getD r.content_key, p.block_num.getD r.block_num,
   p.block_time.getD r.block_time, p.trx_id.getD r.trx_id,
   p.operation_type.getD r.operation_type, p.is_removed.getD r.is_removed⟩

/-- Compose permission patches, the first (outer) one winning. -/
def PermPatch.comp (q p : PermPatch) : PermPatch :=
  ⟨q.subject_account <|> p.subject_account, q.operator_account <|> p.operator_account,
   q.permission_type <|> p.permission_type, q.object_id <|> p.object_id,
   q.content_key <|> p.content_key, q.block_num <|> p.block_num,
   q.block_time <|> p.block_time, q.trx_id <|> p.trx_id,
   q.operation_type <|> p.operation_type, q.is_removed <|> p.is_removed⟩

/-- The identity permission patch. -/
def permPid : PermPatch := {}

/-- One write statement against a table: an upsert (`INSERT ... ON CONFLICT DO
UPDATE`) or a bare `UPDATE ... WHERE id = key`. -/
inductive Write (ρ π : Type) where
  | upsert (key : String) (fresh : ρ) (patch : π)
  | update (key : String) (patch : π)
deriving DecidableEq, Repr

/-- The key a write addresses. -/
def keyOfWrite {ρ π : Type} : Write ρ π → String
  | .upsert k _ _ => k
  | .update k _ => k

/-- Execute one write, given the patch application function. -/
def applyWrite {ρ π : Type} (applyF : π → ρ → ρ) (t : Table ρ) : Write ρ π → Table ρ
  | .upsert k f p => upsertRow t k f (applyF p)
  | .update k p => updateRow t k (applyF p)

/-- Execute a list of writes in order. -/
def applyWrites {ρ π : Type} (applyF : π → ρ → ρ) (t : Table ρ) (ws : List (Write ρ π)) :
    Table ρ :=
  ws.foldl (applyWrite applyF) t

/-- A write as seen by a single key: the key itself is dropped. -/
inductive KW (ρ π : Type) where
  | ups (fresh : ρ) (patch : π)
  | upd (patch : π)
deriving DecidableEq, Repr

/-- Effect of one keyed write on the (optional) row under that key. -/
def kstep {ρ π : Type} (applyF : π → ρ → ρ) : Option ρ → KW ρ π → Option ρ
  | none, .ups f _ => some f
  | some r, .ups _ p => some (applyF p r)
  | none, .upd _ => none
  | some r, .upd p => some (applyF p r)

/-- Run a list of keyed writes over the row under one key. -/
def krun {ρ π : Type} (applyF : π → ρ → ρ) (x : Option ρ) (ws : List (KW ρ π)) : Option ρ :=
  ws.foldl (kstep applyF) x

/-- Every `upd` along the run finds an existing row. -/
def kpres {ρ π : Type} (applyF : π → ρ → ρ) : Option ρ → List (KW ρ π) → Bool
  | _, [] => true
  | x, w :: rest =>
    (match x, w with
     | none, .upd _ => false
     | _, _ => true) && kpres applyF (kstep applyF x w) rest

/-- Drop the key of a write. -/
def toKW {ρ π : Type} : Write ρ π → KW ρ π
  | .upsert _ f p => .ups f p
  | .update _ p => .upd p

/-- The keyed writes a given key sees in a write list. -/
def perKey {ρ π : Type} (k : String) : List (Write ρ π) → List (KW ρ π)
  | [] => []
  | w :: rest => if keyOfWrite w = k then toKW w :: perKey k rest else perKey k rest

/-- The patch carried by a keyed write. -/
def patchOfKW {ρ π : Type} : KW ρ π → π
  | .ups _ p => p
  | .upd p => p

/-- Compose the patches of a keyed-write list (later writes outer). -/
def compListP {ρ π : Type} (compF : π → π → π) (pidP : π) : List (KW ρ π) → π
  | [] => pidP
  | w :: rest => compF (compListP compF pidP rest) (patchOfKW w)

/-- A keyed upsert is good when its conflict patch fixes its fresh row. -/
def goodKW {ρ π : Type} (applyF : π → ρ → ρ) : KW ρ π → Prop
  | .ups f p => applyF p f = f
  | .upd _ => True

/-- Fresh row inserted by `handle_content_card_create`. -/
def ccCreateFresh (op : ContentCardCreateOp) (bn bt : Nat) (tx : String) : ContentRow :=
  ⟨op.subject_account, op.hash, op.url, op.type, op.description, op.content_key,
   op.storage_data, bn, bt, tx, 41, false⟩

/-- Conflict patch of `handle_content_card_create`: mutable content fields. -/
def ccCreatePatch (op : ContentCardCreateOp) : CCPatch :=
  { hash := some op.hash, url := some op.url, type := some op.type,
    description := some op.description, content_key := some op.content_key,
    storage_data := some op.storage_data }

/-- Fresh row inserted by `handle_content_card_update`. -/
def ccUpdateFresh (op : ContentCardUpdateOp) (bn bt : Nat) (tx : String) : ContentRow :=
  ⟨op.subject_account, op.hash, op.url, op.type, op.description, op.content_key,
   op.storage_data, bn, bt, tx, 42, false⟩

/-- Conflict patch of `handle_content_card_update`: mutable content fields plus
`block_num`, `block_time` and `operation_type = 42`. -/
def ccUpdatePatch (op : ContentCardUpdateOp) (bn bt : Nat) : CCPatch :=
  { hash := some op.hash, url := some op.url, type := some op.type,
    description := some op.description, content_key := some op.content_key,
    storage_data := some op.storage_data, block_num := some bn, block_time := some bt,
    operation_type := some 42 }

/-- Patch of `handle_content_card_remove`'s `UPDATE`. -/
def ccRemovePatch (bn bt : Nat) : CCPatch :=
  { block_num := some bn, block_time := some bt, operation_type := some 43,
    is_removed := some true }

/-- Fresh row inserted by `handle_permission_create`. -/
def permCreateFresh (op : PermissionCreateOp) (bn bt : Nat) (tx : String) : PermRow :=
  ⟨op.subject_account, op.operator_account, op.permission_type, refObjectId op.object_id,
   op.content_key, bn, bt, tx, 44, false⟩

/-- Conflict patch of `handle_permission_create`. -/
def permCreatePatch (op : PermissionCreateOp) : PermPatch :=
  { permission_type := some op.permission_type, content_key := some op.content_key }

/-- Fresh row inserted for one item of `handle_permission_create_many`. -/
def permSubFresh (subj : String) (item : PermissionSubOp) (bn bt : Nat) (tx : String) :
    PermRow :=
  ⟨subj, item.operator_account, item.permission_type, refObjectId item.object_id,
   item.content_key, bn, bt, tx, 64, false⟩

/-- Conflict patch for one item of `handle_permission_create_many`. -/
def permSubPatch (item : PermissionSubOp) : PermPatch :=
  { permission_type := some item.permission_type, content_key := some item.content_key }

/-- Patch of `handle_permission_remove`'s `UPDATE`. -/
def permRemovePatch (bn bt : Nat) : PermPatch :=
  { block_num := some bn, block_time := some bt, operation_type := some 45,
    is_removed := some true }

/-- Identifier assigned to item `i` of a bulk permission create: the `i`-th
element of the resolved set while it lasts, the indexed placeholder after. -/
def assignedPermId (tx : String) (objs : List String) (i : Nat) : String :=
  (objs.get? i).getD (bulkPlaceholder tx i)

/-- The write list of `handle_permission_create_many`, item `i` onwards, with
absolute indexing into the resolved identifier list. -/
def manyWritesAux (subj : String) (bn bt : Nat) (tx : String) (objs : List String) :
    List PermissionSubOp → Nat → List (Write PermRow PermPatch)
  | [], _ => []
  | item :: rest, i =>
    .upsert (assignedPermId tx objs i) (permSubFresh subj item bn bt tx) (permSubPatch item)
      :: manyWritesAux subj bn bt tx objs rest (i + 1)

/-- Content-card writes of one applied operation. -/
def opWritesCC (b : SignedBlock) (aop : AppliedOperation) : List (Write ContentRow CCPatch) :=
  let tx := trxIdOf b aop.trx_in_block
  let oid := get_object_id_from_result aop.result
  match aop.op with
  | .content_card_create op =>
    [.upsert (fallbackId oid tx) (ccCreateFresh op b.block_num b.timestamp tx)
      (ccCreatePatch op)]
  | .content_card_update op =>
    [.upsert (fallbackId oid tx) (ccUpdateFresh op b.block_num b.timestamp tx)
      (ccUpdatePatch op b.block_num b.timestamp)]
  | .content_card_remove op =>
    [.update op.content_id (ccRemovePatch b.block_num b.timestamp)]
  | _ => []

/-- Permission writes of one applied operation. -/
def opWritesPerm (b : SignedBlock) (aop : AppliedOperation) : List (Write PermRow PermPatch) :=
  let tx := trxIdOf b aop.trx_in_block
  let oid := get_object_id_from_result aop.result
  match aop.op with
  | .permission_create op =>
    [.upsert (fallbackId oid tx) (permCreateFresh op b.block_num b.timestamp tx)
      (permCreatePatch op)]
  | .permission_remove op =>
    [.update op.permission_id (permRemovePatch b.block_num b.timestamp)]
  | .permission_create_many op =>
    manyWritesAux op.subject_account b.block_num b.timestamp tx
      (newObjectsFromResult aop.result) op.permissions 0
  | _ => []

/-- Content-card writes of a whole applied-operation list. -/
def histWritesCC (b : SignedBlock) : List (Option AppliedOperation) →
    List (Write ContentRow CCPatch)
  | [] => []
  | none :: rest => histWritesCC b rest
  | some aop :: rest => opWritesCC b aop ++ histWritesCC b rest

/-- Permission writes of a whole applied-operation list. -/
def histWritesPerm (b : SignedBlock) : List (Option AppliedOperation) →
    List (Write PermRow PermPatch)
  | [] => []
  | none :: rest => histWritesPerm b rest
  | some aop :: rest => opWritesPerm b aop ++ histWritesPerm b rest

/-- Sample block used by concrete evaluations. -/
def blkA : SignedBlock := ⟨100, 1000, ["T"]⟩

/-- Sample content-card create payload. -/
def ccOpA : ContentCardCreateOp := ⟨"1.2.5", "abcd", "u", "t", "d", "k", "s"⟩

/-- Sample content-card update payload. -/
def updOpA : ContentCardUpdateOp := ⟨"1.2.5", "h1", "u1", "t1x", "d1", "k1", "s1"⟩

/-- Sample pre-existing content-card row (written at block 90 by trx `t1`). -/
def rowA : ContentRow := ⟨"1.2.5", "h0", "u0", "t0", "d0", "k0", "s0", 90, 900, "t1", 41, false⟩

/-- Sample permission create payload. -/
def permOpA : PermissionCreateOp := ⟨"1.2.5", "1.2.6", "pt1", none, "k1"⟩

/-- Second sample permission create payload, different operator and key. -/
def permOpB : PermissionCreateOp := ⟨"1.2.5", "1.2.7", "pt2", none, "k2"⟩

/-- History with a remove of `1.7.3` followed by the create that produces
`1.7.3`, both in transaction `T`. -/
def histRemoveCreate : List (Option AppliedOperation) :=
  [some ⟨.content_card_remove ⟨"1.7.3"⟩, .void_result, 0⟩,
   some ⟨.content_card_create ccOpA, .object_id "1.7.3", 0⟩]

/-- History with a single resolved content-card create. -/
def histOneCreate : List (Option AppliedOperation) :=
  [some ⟨.content_card_create ccOpA, .object_id "1.7.3", 0⟩]

/-- History with two unresolved single permission creates in transaction `T`. -/
def histTwoPending : List (Option AppliedOperation) :=
  [some ⟨.permission_create permOpA, .void_result, 0⟩,
   some ⟨.permission_create permOpB, .void_result, 0⟩]

theorem findRow_updateRow {ρ : Type} (t : Table ρ) (key : String) (f : ρ → ρ) (k : String) :
    findRow (updateRow t key f) k = if key = k then (findRow t k).map f else findRow t k := by
  induction t with
  | nil => simp only [updateRow, List.map_nil, findRow, Option.map_none]
           split <;> rfl
  | cons hd tl ih =>
    obtain ⟨k0, r⟩ := hd
    simp only [updateRow, List.map_cons, findRow] at ih ⊢
    by_cases h1 : k0 = k
    · subst h1
      by_cases h0 : k0 = key
      · subst h0
        simp
      · simp [h0, Ne.symm h0]
    · simp only [h1, if_false]
      rw [ih]

theorem findRow_append_single {ρ : Type} (t : Table ρ) (key : String) (fresh : ρ) (k : String) :
    findRow (t ++ [(key, fresh)]) k =
      match findRow t k with
      | some r => some r
      | none => if key = k then some fresh else none := by
  induction t with
  | nil => simp [findRow]
  | cons hd tl ih =>
    obtain ⟨k0, r⟩ := hd
    by_cases h1 : k0 = k <;> simp [findRow, h1, ih]

theorem updateRow_of_absent {ρ : Type} (t : Table ρ) (key : String) (f : ρ → ρ)
    (h : findRow t key = none) : updateRow t key f = t := by
  induction t with
  | nil => rfl
  | cons hd tl ih =>
    obtain ⟨k0, r⟩ := hd
    simp only [findRow] at h
    by_cases h0 : k0 = key
    · simp [h0] at h
    · simp only [h0, if_false] at h
      simp only [updateRow, List.map_cons, h0, if_false]
      simp only [updateRow] at ih
      rw [ih h]

theorem findRow_upsertRow {ρ : Type} (t : Table ρ) (key : String) (fresh : ρ) (f : ρ → ρ)
    (k : String) :
    findRow (upsertRow t key fresh f) k =
      if key = k then
        match findRow t key with
        | some r => some (f r)
        | none => some fresh
      else findRow t k := by
  unfold upsertRow
  cases hfind : findRow t key with
  | some r =>
    simp only [hfind, Option.isSome_some, if_true]
    rw [findRow_updateRow]
    by_cases hk : key = k
    · subst hk
      simp [hfind]
    · simp [hk]
  | none =>
    simp only [hfind, Option.isSome_none, Bool.false_eq_true, if_false]
    rw [findRow_append_single]
    by_cases hk : key = k
    · subst hk
      simp [hfind]
    · simp only [hk, if_false]
      cases hf2 : findRow t k <;> simp [hk, hf2]

theorem upsertRow_other {ρ : Type} (t : Table ρ) (key : String) (fresh : ρ) (f : ρ → ρ)
    (k : String) (h : key ≠ k) : findRow (upsertRow t key fresh f) k = findRow t k := by
  rw [findRow_upsertRow]
  simp [h]

theorem undigits_natDigitsF (fuel : Nat) : ∀ n : Nat, n ≤ fuel → undigits (natDigitsF fuel n) = n := by
  induction fuel with
  | zero =>
    intro n h
    have h0 : n = 0 := Nat.le_zero.mp h
    subst h0
    rfl
  | succ f ih =>
    intro n h
    by_cases h10 : n < 10
    · simp [natDigitsF, h10, undigits]
    · simp only [natDigitsF, h10, if_false]
      have hle : n / 10 ≤ f := by
        have h1 : n / 10 < n := Nat.div_lt_self (by omega) (by omega)
        omega
      have hrec := ih (n / 10) hle
      simp only [undigits, List.foldl_append] at hrec ⊢
      rw [hrec]
      simp only [List.foldl_cons, List.foldl_nil]
      omega

theorem natDigitsF_lt10 (fuel : Nat) : ∀ n : Nat, n ≤ fuel → ∀ d ∈ natDigitsF fuel n, d < 10 := by
  induction fuel with
  | zero =>
    intro n h d hd
    have h0 : n = 0 := Nat.le_zero.mp h
    subst h0
    simp [natDigitsF] at hd
    omega
  | succ f ih =>
    intro n h d hd
    by_cases h10 : n < 10
    · simp [natDigitsF, h10] at hd
      omega
    · simp only [natDigitsF, h10, if_false, List.mem_append, List.mem_singleton] at hd
      rcases hd with h2 | h2
      · have hle : n / 10 ≤ f := by
          have h1 : n / 10 < n := Nat.div_lt_self (by omega) (by omega)
          omega
        exact ih (n / 10) hle d h2
      · subst h2
        exact Nat.mod_lt _ (by omega)

theorem digitChar_inj_lt10 : ∀ a < 10, ∀ b < 10, Nat.digitChar a = Nat.digitChar b → a = b := by
  decide

theorem map_digitChar_inj : ∀ (l1 l2 : List Nat), (∀ d ∈ l1, d < 10) → (∀ d ∈ l2, d < 10) →
    l1.map Nat.digitChar = l2.map Nat.digitChar → l1 = l2 := by
  intro l1
  induction l1 with
  | nil =>
    intro l2 _ _ h
    cases l2 with
    | nil => rfl
    | cons b t2 => simp at h
  | cons a t ih =>
    intro l2 h1 h2 h
    cases l2 with
    | nil => simp at h
    | cons b t2 =>
      simp only [List.map_cons, List.cons.injEq] at h
      have hab : a = b :=
        digitChar_inj_lt10 a (h1 a (by simp)) b (h2 b (by simp)) h.1
      have ht : t = t2 :=
        ih t2 (fun d hd => h1 d (by simp [hd])) (fun d hd => h2 d (by simp [hd])) h.2
      rw [hab, ht]

theorem natToString_inj {m n : Nat} (h : natToString m = natToString n) : m = n := by
  unfold natToString at h
  have h2 : (natDigits m).map Nat.digitChar = (natDigits n).map Nat.digitChar :=
    String.ext_iff.mp h
  have h3 : natDigits m = natDigits n :=
    map_digitChar_inj _ _ (natDigitsF_lt10 m m le_rfl) (natDigitsF_lt10 n n le_rfl) h2
  have h4 := congrArg undigits h3
  unfold natDigits at h4
  rwa [undigits_natDigitsF m m le_rfl, undigits_natDigitsF n n le_rfl] at h4

theorem bulkPlaceholder_inj (tx : String) {i j : Nat}
    (h : bulkPlaceholder tx i = bulkPlaceholder tx j) : i = j := by
  unfold bulkPlaceholder at h
  have hd := congrArg String.data h
  simp only [String.data_append] at hd
  have h2 : (natToString i).data = (natToString j).data := List.append_cancel_left hd
  exact natToString_inj (String.ext h2)

theorem fallback_ne_bulkPlaceholder (tx : String) (i : Nat) :
    fallbackId "" tx ≠ bulkPlaceholder tx i := by
  intro h
  have hl := congrArg String.length h
  rw [show fallbackId "" tx = "pending-" ++ tx from rfl] at hl
  unfold bulkPlaceholder at hl
  rw [String.length_append, String.length_append, String.length_append,
    String.length_append] at hl
  have hone : ("-" : String).length = 1 := rfl
  rw [hone] at hl
  omega

/-- C9: for every block whose number is below the configured start-block
threshold, the projector returns immediately and writes nothing to either
table. -/
theorem start_block_gating (start_block : Nat) (b : SignedBlock)
    (hist : List (Option AppliedOperation)) (s : State)
    (h : b.block_num < start_block) : on_block start_block b hist s = s := by
  simp [on_block, h]

theorem start_block_gating_witness :
    on_block 5 ⟨1, 0, []⟩ [] ⟨[], []⟩ = ⟨[], []⟩ :=
  start_block_gating 5 ⟨1, 0, []⟩ [] ⟨[], []⟩ (by decide)

/-- C8: an applied operation whose discriminant is not one of the handled kinds
performs zero writes, never fails, and the remaining operations of the block
are processed exactly as if it were absent. -/
theorem unrecognized_kind_skipped (b : SignedBlock) (aop : AppliedOperation) (w : Nat)
    (h : aop.op = .other w) (start_block : Nat) (pre post : List (Option AppliedOperation))
    (s : State) :
    applyOperation b aop s = s ∧
    on_block start_block b (pre ++ some aop :: post) s =
      on_block start_block b (pre ++ post) s := by
  have h1 : ∀ s' : State, applyOperation b aop s' = s' := by
    intro s'
    simp [applyOperation, h]
  refine ⟨h1 s, ?_⟩
  unfold on_block
  by_cases hb : b.block_num < start_block
  · simp [hb]
  · simp only [hb, if_false, List.foldl_append, List.foldl_cons]
    rw [h1]

theorem unrecognized_kind_skipped_witness :
    applyOperation blkA ⟨.other 7, .void_result, 0⟩ ⟨[], []⟩ = ⟨[], []⟩ ∧
    on_block 0 blkA ([] ++ some ⟨.other 7, .void_result, 0⟩ :: []) ⟨[], []⟩ =
      on_block 0 blkA ([] ++ []) ⟨[], []⟩ :=
  unrecognized_kind_skipped blkA ⟨.other 7, .void_result, 0⟩ 7 rfl 0 [] [] ⟨[], []⟩

/-- C2: identifier resolution is total and returns the single identifier for
the object-identifier variant, the embedded identifier list in its own order
for the generic variant, and the empty sequence for every other variant (void,
asset amount, or any future variant). -/
theorem resolver_variant_correct :
    (∀ i, get_object_id_from_result (.object_id i) = i ∧
      resolvedIds (.object_id i) = [i]) ∧
    (∀ ids, newObjectsFromResult (.generic_result ids) = ids ∧
      resolvedIds (.generic_result ids) = ids) ∧
    (resolvedIds .void_result = [] ∧ (∀ a, resolvedIds (.asset_result a) = []) ∧
      (∀ w, resolvedIds (.other w) = [])) :=
  ⟨fun _ => ⟨rfl, rfl⟩, fun _ => ⟨rfl, rfl⟩, rfl, fun _ => rfl, fun _ => rfl⟩

/-- C10: `room_create_operation::validate()` succeeds exactly when the fee
amount is non-negative, the name is non-empty with at most 256 characters, and
the room key is non-empty; being a pure function of the operation it modifies
nothing. -/
theorem room_create_validate_iff (op : room_create_operation) :
    room_create_validate op = .ok () ↔
      (0 ≤ op.fee.amount ∧ op.name ≠ "" ∧ op.name.length ≤ 256 ∧ op.room_key ≠ "") := by
  unfold room_create_validate
  split_ifs with h1 h2 h3 h4 <;> simp_all

theorem room_create_validate_iff_witness :
    room_create_validate ⟨⟨5⟩, 1, "room", "key"⟩ = .ok () :=
  (room_create_validate_iff ⟨⟨5⟩, 1, "room", "key"⟩).mpr (by decide)

/-- C6: a content-card create that conflicts on an existing id overwrites only
the mutable content fields, leaving subject account and all lifecycle metadata
(block number, block time, transaction id, operation kind, soft-delete flag)
of the row unchanged; a permission create that conflicts overwrites only the
permission type and content key. -/
theorem create_conflict_frame :
    (∀ (op : ContentCardCreateOp) (bn bt : Nat) (tx oid : String) (t : Table ContentRow)
      (r : ContentRow), findRow t (fallbackId oid tx) = some r →
      findRow (handle_content_card_create op bn bt tx oid t) (fallbackId oid tx) =
        some { r with
          hash := op.hash, url := op.url, type := op.type, description := op.description,
          content_key := op.content_key, storage_data := op.storage_data }) ∧
    (∀ (op : PermissionCreateOp) (bn bt : Nat) (tx oid : String) (t : Table PermRow)
      (r : PermRow), findRow t (fallbackId oid tx) = some r →
      findRow (handle_permission_create op bn bt tx oid t) (fallbackId oid tx) =
        some { r with
          permission_type := op.permission_type, content_key := op.content_key }) := by
  constructor
  · intro op bn bt tx oid t r h
    unfold handle_content_card_create
    rw [findRow_upsertRow]
    simp [h]
  · intro op bn bt tx oid t r h
    unfold handle_permission_create
    rw [findRow_upsertRow]
    simp [h]

theorem create_conflict_frame_witness :
    findRow (handle_content_card_create ccOpA 100 1000 "T" "1.7.3" [("1.7.3", rowA)])
        (fallbackId "1.7.3" "T") =
      some { rowA with
        hash := ccOpA.hash, url := ccOpA.url, type := ccOpA.type,
        description := ccOpA.description, content_key := ccOpA.content_key,
        storage_data := ccOpA.storage_data } :=
  create_conflict_frame.1 ccOpA 100 1000 "T" "1.7.3" [("1.7.3", rowA)] rowA (by decide)

/-- C7: a content-card (resp. permission) remove only rewrites the row with
the matching id, setting the soft-delete flag and refreshing block number,
block time and operation kind while every other field keeps its prior value;
rows under other ids are untouched and an absent id leaves the table exactly
as it was. -/
theorem remove_soft_delete_frame :
    (∀ (op : ContentCardRemoveOp) (bn bt : Nat) (t : Table ContentRow),
      (∀ r, findRow t op.content_id = some r →
        findRow (handle_content_card_remove op bn bt t) op.content_id =
          some { r with
            is_removed := true, block_num := bn, block_time := bt,
            operation_type := 43 }) ∧
      (∀ k, k ≠ op.content_id →
        findRow (handle_content_card_remove op bn bt t) k = findRow t k) ∧
      (findRow t op.content_id = none → handle_content_card_remove op bn bt t = t)) ∧
    (∀ (op : PermissionRemoveOp) (bn bt : Nat) (t : Table PermRow),
      (∀ r, findRow t op.permission_id = some r →
        findRow (handle_permission_remove op bn bt t) op.permission_id =
          some { r with
            is_removed := true, block_num := bn, block_time := bt,
            operation_type := 45 }) ∧
      (∀ k, k ≠ op.permission_id →
        findRow (handle_permission_remove op bn bt t) k = findRow t k) ∧
      (findRow t op.permission_id = none → handle_permission_remove op bn bt t = t)) := by
  constructor
  · intro op bn bt t
    refine ⟨?_, ?_, ?_⟩
    · intro r h
      unfold handle_content_card_remove
      rw [findRow_updateRow]
      simp [h]
    · intro k hk
      unfold handle_content_card_remove
      rw [findRow_updateRow]
      simp [Ne.symm hk]
    · intro h
      unfold handle_content_card_remove
      exact updateRow_of_absent _ _ _ h
  · intro op bn bt t
    refine ⟨?_, ?_, ?_⟩
    · intro r h
      unfold handle_permission_remove
      rw [findRow_updateRow]
      simp [h]
    · intro k hk
      unfold handle_permission_remove
      rw [findRow_updateRow]
      simp [Ne.symm hk]
    · intro h
      unfold handle_permission_remove
      exact updateRow_of_absent _ _ _ h

theorem remove_soft_delete_frame_witness :
    findRow (handle_content_card_remove ⟨"1.7.3"⟩ 101 1010 [("1.7.3", rowA)]) "1.7.3" =
      some { rowA with
        is_removed := true, block_num := 101, block_time := 1010,
        operation_type := 43 } ∧
    handle_content_card_remove ⟨"1.9.9"⟩ 101 1010 [("1.7.3", rowA)] = [("1.7.3", rowA)] :=
  ⟨((remove_soft_delete_frame.1 ⟨"1.7.3"⟩ 101 1010 [("1.7.3", rowA)]).1 rowA (by decide)),
   ((remove_soft_delete_frame.1 ⟨"1.9.9"⟩ 101 1010 [("1.7.3", rowA)]).2.2 (by decide))⟩

/-- C3 is refuted at this input: a content-card update conflicting on id
`1.7.3` leaves the transaction id of the existing row (`t1`) in place instead
of overwriting it with the later write's transaction id (`t2`). -/
theorem update_conflict_trx_id_not_overwritten :
    (findRow (handle_content_card_update updOpA 101 1010 "t2" "1.7.3" [("1.7.3", rowA)])
        "1.7.3").map ContentRow.trx_id = some "t1" ∧
    ("t1" : String) ≠ "t2" := by
  exact ⟨by decide, by decide⟩

/-- C3 (amended): a content-card update that conflicts on an existing id
overwrites the mutable content fields together with block number, block time
and operation kind, while the transaction id (and the subject account and
soft-delete flag) of the existing row keeps its prior value. -/
theorem update_conflict_overwrites_all_but_trx (op : ContentCardUpdateOp) (bn bt : Nat)
    (tx oid : String) (t : Table ContentRow) (r : ContentRow)
    (h : findRow t (fallbackId oid tx) = some r) :
    findRow (handle_content_card_update op bn bt tx oid t) (fallbackId oid tx) =
      some { r with
        hash := op.hash, url := op.url, type := op.type, description := op.description,
        content_key := op.content_key, storage_data := op.storage_data,
        block_num := bn, block_time := bt, operation_type := 42 } := by
  unfold handle_content_card_update
  rw [findRow_upsertRow]
  simp [h]

theorem update_conflict_overwrites_witness :
    findRow (handle_content_card_update updOpA 101 1010 "t2" "1.7.3" [("1.7.3", rowA)])
        (fallbackId "1.7.3" "t2") =
      some { rowA with
        hash := updOpA.hash, url := updOpA.url, type := updOpA.type,
        description := updOpA.description, content_key := updOpA.content_key,
        storage_data := updOpA.storage_data, block_num := 101, block_time := 1010,
        operation_type := 42 } :=
  update_conflict_overwrites_all_but_trx updOpA 101 1010 "t2" "1.7.3" [("1.7.3", rowA)] rowA
    (by decide)

/-- C4 is refuted at this input: two unresolved single permission creates in
the same transaction `T` both synthesize the key `pending-T`, so after the
block is projected the table holds a single row for the two created
permissions (the second write overwrote the first row's type and key). -/
theorem same_trx_placeholders_collide :
    fallbackId (get_object_id_from_result .void_result) (trxIdOf blkA 0) = "pending-T" ∧
    (on_block 0 blkA histTwoPending ⟨[], []⟩).permissions =
      [("pending-T", ⟨"1.2.5", "1.2.6", "pt2", "", "k2", 100, 1000, "T", 44, false⟩)] := by
  exact ⟨rfl, by decide⟩

/-- C4 (amended): placeholder synthesis is deterministic; the indexed
placeholders of one bulk create are pairwise distinct for distinct indices, and
an indexed bulk placeholder never equals the un-indexed single-create
placeholder of the same transaction.  Uniqueness across several unresolved
creates of the same transaction does not hold (two unresolved single creates
share `pending-<trx>`). -/
theorem placeholder_distinctness (tx : String) (i j : Nat) :
    (i ≠ j → bulkPlaceholder tx i ≠ bulkPlaceholder tx j) ∧
    fallbackId "" tx ≠ bulkPlaceholder tx i := by
  constructor
  · intro hij h
    exact hij (bulkPlaceholder_inj tx h)
  · exact fallback_ne_bulkPlaceholder tx i

theorem placeholder_distinctness_witness :
    bulkPlaceholder "T" 0 ≠ bulkPlaceholder "T" 1 :=
  (placeholder_distinctness "T" 0 1).1 (by decide)

theorem headOr_drop {α : Type} (l : List α) (i : Nat) (d : α) :
    headOr (l.drop i) d = (l.get? i).getD d := by
  induction l generalizing i with
  | nil => cases i <;> rfl
  | cons a t ih =>
    cases i with
    | zero => rfl
    | succ n => exact ih n

theorem tail_drop_succ {α : Type} (l : List α) (i : Nat) : (l.drop i).tail = l.drop (i + 1) := by
  rw [← List.drop_one, List.drop_drop]

theorem permCreateManyGo_spec (subj : String) (bn bt : Nat) (tx : String) (objs : List String) :
    ∀ (items : List PermissionSubOp) (i : Nat) (t : Table PermRow),
      permCreateManyGo subj bn bt tx items (objs.drop i) i t =
        applyWrites PermPatch.apply t (manyWritesAux subj bn bt tx objs items i) := by
  intro items
  induction items with
  | nil => intro i t; rfl
  | cons item rest ih =>
    intro i t
    dsimp only [permCreateManyGo]
    rw [headOr_drop, tail_drop_succ, ih (i + 1)]
    rfl

/-- C5: a bulk permission create performs exactly one upsert per batch item, in
array order, pairing item `i` with the `i`-th identifier of the resolved set
(`assignedPermId`), falling back to the indexed placeholder once the set is
exhausted; and the placeholders of the unresolved suffix are pairwise
distinct. -/
theorem bulk_create_writes_in_order (op : PermissionCreateManyOp) (bn bt : Nat)
    (tx : String) (objs : List String) (t : Table PermRow) (i j : Nat) :
    handle_permission_create_many op bn bt tx objs t =
      applyWrites PermPatch.apply t
        (manyWritesAux op.subject_account bn bt tx objs op.permissions 0) ∧
    (objs.length ≤ i → objs.length ≤ j → i ≠ j →
      assignedPermId tx objs i ≠ assignedPermId tx objs j) := by
  constructor
  · exact permCreateManyGo_spec op.subject_account bn bt tx objs op.permissions 0 t
  · intro hi hj hij
    unfold assignedPermId
    rw [List.get?_eq_none.mpr hi, List.get?_eq_none.mpr hj]
    simp only [Option.getD_none]
    intro h
    exact hij (bulkPlaceholder_inj tx h)

theorem bulk_create_writes_in_order_witness :
    assignedPermId "T" ["1.8.1"] 1 ≠ assignedPermId "T" ["1.8.1"] 2 :=
  (bulk_create_writes_in_order ⟨"1.2.5", []⟩ 100 1000 "T" ["1.8.1"] [] 1 2).2
    (by decide) (by decide) (by decide)

theorem getD_orElse {α : Type} (a b : Option α) (x : α) :
    (a <|> b).getD x = a.getD (b.getD x) := by
  cases a <;> rfl

theorem getD_idem {α : Type} (a : Option α) (x : α) : a.getD (a.getD x) = a.getD x := by
  cases a <;> rfl

theorem getD_getD_absorb {α : Type} (a b : Option α) (x : α) (h : b.getD x = x) :
    a.getD (b.getD (a.getD x)) = a.getD x := by
  cases a with
  | none => simp only [Option.getD_none, h]
  | some v => rfl

theorem ccApply_pid (r : ContentRow) : CCPatch.apply ccPid r = r := rfl

theorem ccComp_apply (q p : CCPatch) (r : ContentRow) :
    CCPatch.apply (CCPatch.comp q p) r = CCPatch.apply q (CCPatch.apply p r) := by
  simp only [CCPatch.apply, CCPatch.comp, getD_orElse]

theorem ccApply_idem (p : CCPatch) (r : ContentRow) :
    CCPatch.apply p (CCPatch.apply p r) = CCPatch.apply p r := by
  simp only [CCPatch.apply, getD_idem]

theorem ccApply_absorb (pc p : CCPatch) (r : ContentRow) (h : CCPatch.apply p r = r) :
    CCPatch.apply pc (CCPatch.apply p (CCPatch.apply pc r)) = CCPatch.apply pc r := by
  have h1 : p.subject_account.getD r.subject_account = r.subject_account :=
    congrArg ContentRow.subject_account h
  have h2 : p.hash.getD r.hash = r.hash := congrArg ContentRow.hash h
  have h3 : p.url.getD r.url = r.url := congrArg ContentRow.url h
  have h4 : p.type.getD r.type = r.type := congrArg ContentRow.type h
  have h5 : p.description.getD r.description = r.description :=
    congrArg ContentRow.description h
  have h6 : p.content_key.getD r.content_key = r.content_key :=
    congrArg ContentRow.content_key h
  have h7 : p.storage_data.getD r.storage_data = r.storage_data :=
    congrArg ContentRow.storage_data h
  have h8 : p.block_num.getD r.block_num = r.block_num := congrArg ContentRow.block_num h
  have h9 : p.block_time.getD r.block_time = r.block_time := congrArg ContentRow.block_time h
  have h10 : p.trx_id.getD r.trx_id = r.trx_id := congrArg ContentRow.trx_id h
  have h11 : p.operation_type.getD r.operation_type = r.operation_type :=
    congrArg ContentRow.operation_type h
  have h12 : p.is_removed.getD r.is_removed = r.is_removed := congrArg ContentRow.is_removed h
  simp only [CCPatch.apply, ContentRow.mk.injEq]
  exact ⟨getD_getD_absorb _ _ _ h1, getD_getD_absorb _ _ _ h2, getD_getD_absorb _ _ _ h3,
    getD_getD_absorb _ _ _ h4, getD_getD_absorb _ _ _ h5, getD_getD_absorb _ _ _ h6,
    getD_getD_absorb _ _ _ h7, getD_getD_absorb _ _ _ h8, getD_getD_absorb _ _ _ h9,
    getD_getD_absorb _ _ _ h10, getD_getD_absorb _ _ _ h11, getD_getD_absorb _ _ _ h12⟩

theorem permApply_pid (r : PermRow) : PermPatch.apply permPid r = r := rfl

theorem permComp_apply (q p : PermPatch) (r : PermRow) :
    PermPatch.apply (PermPatch.comp q p) r = PermPatch.apply q (PermPatch.apply p r) := by
  simp only [PermPatch.apply, PermPatch.comp, getD_orElse]

theorem permApply_idem (p : PermPatch) (r : PermRow) :
    PermPatch.apply p (PermPatch.apply p r) = PermPatch.apply p r := by
  simp only [PermPatch.apply, getD_idem]

theorem permApply_absorb (pc p : PermPatch) (r : PermRow) (h : PermPatch.apply p r = r) :
    PermPatch.apply pc (PermPatch.apply p (PermPatch.apply pc r)) = PermPatch.apply pc r := by
  have h1 : p.subject_account.getD r.subject_account = r.subject_account :=
    congrArg PermRow.subject_account h
  have h2 : p.operator_account.getD r.operator_account = r.operator_account :=
    congrArg PermRow.operator_account h
  have h3 : p.permission_type.getD r.permission_type = r.permission_type :=
    congrArg PermRow.permission_type h
  have h4 : p.object_id.getD r.object_id = r.object_id := congrArg PermRow.object_id h
  have h5 : p.content_key.getD r.content_key = r.content_key :=
    congrArg PermRow.content_key h
  have h6 : p.block_num.getD r.block_num = r.block_num := congrArg PermRow.block_num h
  have h7 : p.block_time.getD r.block_time = r.block_time := congrArg PermRow.block_time h
  have h8 : p.trx_id.getD r.trx_id = r.trx_id := congrArg PermRow.trx_id h
  have h9 : p.operation_type.getD r.operation_type = r.operation_type :=
    congrArg PermRow.operation_type h
  have h10 : p.is_removed.getD r.is_removed = r.is_removed := congrArg PermRow.is_removed h
  simp only [PermPatch.apply, PermRow.mk.injEq]
  exact ⟨getD_getD_absorb _ _ _ h1, getD_getD_absorb _ _ _ h2, getD_getD_absorb _ _ _ h3,
    getD_getD_absorb _ _ _ h4, getD_getD_absorb _ _ _ h5, getD_getD_absorb _ _ _ h6,
    getD_getD_absorb _ _ _ h7, getD_getD_absorb _ _ _ h8, getD_getD_absorb _ _ _ h9,
    getD_getD_absorb _ _ _ h10⟩

theorem krun_some {ρ π : Type} (applyF : π → ρ → ρ) (compF : π → π → π) (pidP : π)
    (hpid : ∀ r, applyF pidP r = r)
    (hcomp : ∀ q p r, applyF (compF q p) r = applyF q (applyF p r)) :
    ∀ (ws : List (KW ρ π)) (r : ρ),
      krun applyF (some r) ws = some (applyF (compListP compF pidP ws) r) := by
  intro ws
  induction ws with
  | nil => intro r
           simp [krun, compListP, hpid]
  | cons w rest ih =>
    intro r
    have hstep : kstep applyF (some r) w = some (applyF (patchOfKW w) r) := by
      cases w <;> rfl
    show krun applyF (kstep applyF (some r) w) rest = _
    rw [hstep, ih]
    show _ = some (applyF (compF (compListP compF pidP rest) (patchOfKW w)) r)
    rw [hcomp]

theorem krun_idem {ρ π : Type} (applyF : π → ρ → ρ) (compF : π → π → π) (pidP : π)
    (hpid : ∀ r, applyF pidP r = r)
    (hcomp : ∀ q p r, applyF (compF q p) r = applyF q (applyF p r))
    (hidem : ∀ p r, applyF p (applyF p r) = applyF p r)
    (habsorb : ∀ pc p r, applyF p r = r →
      applyF pc (applyF p (applyF pc r)) = applyF pc r)
    (ws : List (KW ρ π)) (hg : ∀ w ∈ ws, goodKW applyF w) (x : Option ρ)
    (hp : kpres applyF x ws = true) :
    krun applyF (krun applyF x ws) ws = krun applyF x ws := by
  cases ws with
  | nil => rfl
  | cons w rest =>
    unfold kpres at hp
    rw [Bool.and_eq_true] at hp
    obtain ⟨hc, _⟩ := hp
    have key : ∃ r1, kstep applyF x w = some r1 ∧ applyF (patchOfKW w) r1 = r1 := by
      cases x with
      | none =>
        cases w with
        | ups f p => exact ⟨f, rfl, hg (.ups f p) (by simp)⟩
        | upd p => simp at hc
      | some r =>
        cases w with
        | ups f p => exact ⟨applyF p r, rfl, hidem p r⟩
        | upd p => exact ⟨applyF p r, rfl, hidem p r⟩
    obtain ⟨r1, hx1, hfix⟩ := key
    have hy : krun applyF x (w :: rest) = krun applyF (some r1) rest := by
      show krun applyF (kstep applyF x w) rest = _
      rw [hx1]
    rw [hy, krun_some applyF compF pidP hpid hcomp rest r1]
    have hstep : kstep applyF (some (applyF (compListP compF pidP rest) r1)) w =
        some (applyF (patchOfKW w) (applyF (compListP compF pidP rest) r1)) := by
      cases w <;> rfl
    show krun applyF (kstep applyF (some (applyF (compListP compF pidP rest) r1)) w) rest = _
    rw [hstep, krun_some applyF compF pidP hpid hcomp rest]
    rw [habsorb _ _ _ hfix]

theorem findRow_applyWrite {ρ π : Type} (applyF : π → ρ → ρ) (t : Table ρ) (w : Write ρ π)
    (k : String) :
    findRow (applyWrite applyF t w) k =
      if keyOfWrite w = k then kstep applyF (findRow t k) (toKW w) else findRow t k := by
  cases w with
  | upsert key f p =>
    show findRow (upsertRow t key f (applyF p)) k = _
    rw [findRow_upsertRow]
    by_cases hk : key = k
    · subst hk
      simp only [keyOfWrite, if_pos rfl, toKW]
      cases hfind : findRow t key <;> simp [kstep, hfind]
    · simp [keyOfWrite, hk]
  | update key p =>
    show findRow (updateRow t key (applyF p)) k = _
    rw [findRow_updateRow]
    by_cases hk : key = k
    · subst hk
      simp only [keyOfWrite, if_pos rfl, toKW]
      cases hfind : findRow t key <;> simp [kstep, hfind]
    · simp [keyOfWrite, hk]

theorem perKey_cons {ρ π : Type} (k : String) (w : Write ρ π) (rest : List (Write ρ π)) :
    perKey k (w :: rest) =
      if keyOfWrite w = k then toKW w :: perKey k rest else perKey k rest := rfl

theorem kpres_cons {ρ π : Type} (applyF : π → ρ → ρ) (x : Option ρ) (w : KW ρ π)
    (rest : List (KW ρ π)) :
    kpres applyF x (w :: rest) =
      ((match x, w with
        | none, KW.upd _ => false
        | _, _ => true) && kpres applyF (kstep applyF x w) rest) := rfl

theorem krun_cons {ρ π : Type} (applyF : π → ρ → ρ) (x : Option ρ) (w : KW ρ π)
    (l : List (KW ρ π)) : krun applyF x (w :: l) = krun applyF (kstep applyF x w) l := rfl

theorem findRow_applyWrites {ρ π : Type} (applyF : π → ρ → ρ) :
    ∀ (ws : List (Write ρ π)) (t : Table ρ) (k : String),
      findRow (applyWrites applyF t ws) k = krun applyF (findRow t k) (perKey k ws) := by
  intro ws
  induction ws with
  | nil => intro t k; rfl
  | cons w rest ih =>
    intro t k
    show findRow (applyWrites applyF (applyWrite applyF t w) rest) k = _
    rw [ih, findRow_applyWrite, perKey_cons]
    by_cases hk : keyOfWrite w = k
    · rw [if_pos hk, if_pos hk, krun_cons]
    · rw [if_neg hk, if_neg hk]

theorem applyWrites_append {ρ π : Type} (applyF : π → ρ → ρ) (t : Table ρ)
    (l1 l2 : List (Write ρ π)) :
    applyWrites applyF t (l1 ++ l2) = applyWrites applyF (applyWrites applyF t l1) l2 :=
  List.foldl_append _ _ _ _

theorem perKey_append {ρ π : Type} (k : String) :
    ∀ (l1 l2 : List (Write ρ π)), perKey k (l1 ++ l2) = perKey k l1 ++ perKey k l2 := by
  intro l1
  induction l1 with
  | nil => intro l2; rfl
  | cons w rest ih =>
    intro l2
    rw [List.cons_append, perKey_cons, perKey_cons]
    by_cases hk : keyOfWrite w = k
    · rw [if_pos hk, if_pos hk, ih, List.cons_append]
    · rw [if_neg hk, if_neg hk, ih]

theorem kpres_append_true {ρ π : Type} (applyF : π → ρ → ρ) :
    ∀ (l1 l2 : List (KW ρ π)) (x : Option ρ), kpres applyF x l1 = true →
      kpres applyF (krun applyF x l1) l2 = true → kpres applyF x (l1 ++ l2) = true := by
  intro l1
  induction l1 with
  | nil => intro l2 x _ h2; exact h2
  | cons w rest ih =>
    intro l2 x h1 h2
    rw [kpres_cons, Bool.and_eq_true] at h1
    rw [List.cons_append, kpres_cons, Bool.and_eq_true]
    exact ⟨h1.1, ih l2 (kstep applyF x w) h1.2 h2⟩

theorem kpres_single_ups {ρ π : Type} (applyF : π → ρ → ρ) (x : Option ρ) (f : ρ) (p : π) :
    kpres applyF x [KW.ups f p] = true := by
  cases x <;> rfl

theorem kpres_all_ups {ρ π : Type} (applyF : π → ρ → ρ) :
    ∀ (l : List (KW ρ π)), (∀ w ∈ l, ∃ f p, w = KW.ups f p) → ∀ x,
      kpres applyF x l = true := by
  intro l
  induction l with
  | nil => intro _ x; rfl
  | cons w rest ih =>
    intro h x
    obtain ⟨f, p, hw⟩ := h w (by simp)
    subst hw
    unfold kpres
    rw [Bool.and_eq_true]
    refine ⟨by cases x <;> rfl, ih (fun w hw => h w (by simp [hw])) _⟩

theorem perKey_all_ups {ρ π : Type} (k : String) :
    ∀ (l : List (Write ρ π)), (∀ w ∈ l, ∃ key f p, w = Write.upsert key f p) →
      ∀ w' ∈ perKey k l, ∃ f p, w' = KW.ups f p := by
  intro l
  induction l with
  | nil => intro _ w' hw'; simp [perKey] at hw'
  | cons w rest ih =>
    intro h w' hw'
    unfold perKey at hw'
    by_cases hk : keyOfWrite w = k
    · rw [if_pos hk] at hw'
      rcases List.mem_cons.mp hw' with h1 | h1
      · obtain ⟨key, f, p, hw⟩ := h w (by simp)
        subst hw
        exact ⟨f, p, by simp [h1, toKW]⟩
      · exact ih (fun w hw => h w (by simp [hw])) w' h1
    · rw [if_neg hk] at hw'
      exact ih (fun w hw => h w (by simp [hw])) w' hw'

theorem perKey_good {ρ π : Type} (applyF : π → ρ → ρ) (k : String) :
    ∀ (l : List (Write ρ π)), (∀ w ∈ l, goodKW applyF (toKW w)) →
      ∀ w' ∈ perKey k l, goodKW applyF w' := by
  intro l
  induction l with
  | nil => intro _ w' hw'; simp [perKey] at hw'
  | cons w rest ih =>
    intro h w' hw'
    unfold perKey at hw'
    by_cases hk : keyOfWrite w = k
    · rw [if_pos hk] at hw'
      rcases List.mem_cons.mp hw' with h1 | h1
      · rw [h1]
        exact h w (by simp)
      · exact ih (fun w hw => h w (by simp [hw])) w' h1
    · rw [if_neg hk] at hw'
      exact ih (fun w hw => h w (by simp [hw])) w' hw'

theorem handle_content_card_create_writes (op : ContentCardCreateOp) (bn bt : Nat)
    (tx oid : String) (t : Table ContentRow) :
    handle_content_card_create op bn bt tx oid t =
      applyWrite CCPatch.apply t
        (.upsert (fallbackId oid tx) (ccCreateFresh op bn bt tx) (ccCreatePatch op)) := rfl

theorem handle_content_card_update_writes (op : ContentCardUpdateOp) (bn bt : Nat)
    (tx oid : String) (t : Table ContentRow) :
    handle_content_card_update op bn bt tx oid t =
      applyWrite CCPatch.apply t
        (.upsert (fallbackId oid tx) (ccUpdateFresh op bn bt tx) (ccUpdatePatch op bn bt)) := rfl

theorem handle_content_card_remove_writes (op : ContentCardRemoveOp) (bn bt : Nat)
    (t : Table ContentRow) :
    handle_content_card_remove op bn bt t =
      applyWrite CCPatch.apply t (.update op.content_id (ccRemovePatch bn bt)) := rfl

theorem handle_permission_create_writes (op : PermissionCreateOp) (bn bt : Nat)
    (tx oid : String) (t : Table PermRow) :
    handle_permission_create op bn bt tx oid t =
      applyWrite PermPatch.apply t
        (.upsert (fallbackId oid tx) (permCreateFresh op bn bt tx) (permCreatePatch op)) := rfl

theorem handle_permission_remove_writes (op : PermissionRemoveOp) (bn bt : Nat)
    (t : Table PermRow) :
    handle_permission_remove op bn bt t =
      applyWrite PermPatch.apply t (.update op.permission_id (permRemovePatch bn bt)) := rfl

theorem handle_permission_create_many_writes (op : PermissionCreateManyOp) (bn bt : Nat)
    (tx : String) (objs : List String) (t : Table PermRow) :
    handle_permission_create_many op bn bt tx objs t =
      applyWrites PermPatch.apply t
        (manyWritesAux op.subject_account bn bt tx objs op.permissions 0) :=
  permCreateManyGo_spec op.subject_account bn bt tx objs op.permissions 0 t

theorem applyOperation_writes (b : SignedBlock) (aop : AppliedOperation) (s : State) :
    applyOperation b aop s =
      ⟨applyWrites CCPatch.apply s.content_cards (opWritesCC b aop),
       applyWrites PermPatch.apply s.permissions (opWritesPerm b aop)⟩ := by
  obtain ⟨o, res, tib⟩ := aop
  cases o with
  | content_card_create op =>
    show State.mk (handle_content_card_create op b.block_num b.timestamp
      (trxIdOf b tib) (get_object_id_from_result res) s.content_cards) s.permissions = _
    rw [handle_content_card_create_writes]
    rfl
  | content_card_update op =>
    show State.mk (handle_content_card_update op b.block_num b.timestamp
      (trxIdOf b tib) (get_object_id_from_result res) s.content_cards) s.permissions = _
    rw [handle_content_card_update_writes]
    rfl
  | content_card_remove op =>
    show State.mk (handle_content_card_remove op b.block_num b.timestamp
      s.content_cards) s.permissions = _
    rw [handle_content_card_remove_writes]
    rfl
  | permission_create op =>
    show State.mk s.content_cards (handle_permission_create op b.block_num b.timestamp
      (trxIdOf b tib) (get_object_id_from_result res) s.permissions) = _
    rw [handle_permission_create_writes]
    rfl
  | permission_remove op =>
    show State.mk s.content_cards (handle_permission_remove op b.block_num b.timestamp
      s.permissions) = _
    rw [handle_permission_remove_writes]
    rfl
  | permission_create_many op =>
    show State.mk s.content_cards (handle_permission_create_many op b.block_num b.timestamp
      (trxIdOf b tib) (newObjectsFromResult res) s.permissions) = _
    rw [handle_permission_create_many_writes]
    rfl
  | other w => rfl

theorem on_block_writes (start_block : Nat) (b : SignedBlock) :
    ∀ (hist : List (Option AppliedOperation)) (s : State), ¬ b.block_num < start_block →
      on_block start_block b hist s =
        ⟨applyWrites CCPatch.apply s.content_cards (histWritesCC b hist),
         applyWrites PermPatch.apply s.permissions (histWritesPerm b hist)⟩ := by
  intro hist
  induction hist with
  | nil =>
    intro s h
    simp only [on_block, h, if_false, List.foldl_nil]
    rfl
  | cons o rest ih =>
    intro s h
    cases o with
    | none =>
      have e1 : on_block start_block b (none :: rest) s = on_block start_block b rest s := by
        simp only [on_block, h, if_false, List.foldl_cons]
      rw [e1, ih s h]
      rfl
    | some aop =>
      have e1 : on_block start_block b (some aop :: rest) s =
          on_block start_block b rest (applyOperation b aop s) := by
        simp only [on_block, h, if_false, List.foldl_cons]
      rw [e1, ih _ h, applyOperation_writes]
      dsimp only
      rw [← applyWrites_append, ← applyWrites_append]
      rfl

theorem manyWritesAux_good (subj : String) (bn bt : Nat) (tx : String) (objs : List String) :
    ∀ (items : List PermissionSubOp) (i : Nat),
      ∀ w ∈ manyWritesAux subj bn bt tx objs items i, goodKW PermPatch.apply (toKW w) := by
  intro items
  induction items with
  | nil => intro i w hw; simp [manyWritesAux] at hw
  | cons item rest ih =>
    intro i w hw
    rcases List.mem_cons.mp hw with h1 | h1
    · subst h1
      exact rfl
    · exact ih (i + 1) w h1

theorem manyWritesAux_ups (subj : String) (bn bt : Nat) (tx : String) (objs : List String) :
    ∀ (items : List PermissionSubOp) (i : Nat),
      ∀ w ∈ manyWritesAux subj bn bt tx objs items i,
        ∃ key f p, w = Write.upsert key f p := by
  intro items
  induction items with
  | nil => intro i w hw; simp [manyWritesAux] at hw
  | cons item rest ih =>
    intro i w hw
    rcases List.mem_cons.mp hw with h1 | h1
    · exact ⟨_, _, _, h1⟩
    · exact ih (i + 1) w h1

theorem opWritesCC_good (b : SignedBlock) (aop : AppliedOperation) :
    ∀ w ∈ opWritesCC b aop, goodKW CCPatch.apply (toKW w) := by
  obtain ⟨o, res, tib⟩ := aop
  cases o with
  | content_card_create op =>
    intro w hw
    rcases List.mem_singleton.mp hw with h1
    rw [h1]
    exact rfl
  | content_card_update op =>
    intro w hw
    rcases List.mem_singleton.mp hw with h1
    rw [h1]
    exact rfl
  | content_card_remove op =>
    intro w hw
    rcases List.mem_singleton.mp hw with h1
    rw [h1]
    exact trivial
  | permission_create op => intro w hw; simp [opWritesCC] at hw
  | permission_remove op => intro w hw; simp [opWritesCC] at hw
  | permission_create_many op => intro w hw; simp [opWritesCC] at hw
  | other which => intro w hw; simp [opWritesCC] at hw

theorem opWritesPerm_good (b : SignedBlock) (aop : AppliedOperation) :
    ∀ w ∈ opWritesPerm b aop, goodKW PermPatch.apply (toKW w) := by
  obtain ⟨o, res, tib⟩ := aop
  cases o with
  | permission_create op =>
    intro w hw
    rcases List.mem_singleton.mp hw with h1
    rw [h1]
    exact rfl
  | permission_remove op =>
    intro w hw
    rcases List.mem_singleton.mp hw with h1
    rw [h1]
    exact trivial
  | permission_create_many op =>
    intro w hw
    exact manyWritesAux_good op.subject_account b.block_num b.timestamp (trxIdOf b tib)
      (newObjectsFromResult res) op.permissions 0 w hw
  | content_card_create op => intro w hw; simp [opWritesPerm] at hw
  | content_card_update op => intro w hw; simp [opWritesPerm] at hw
  | content_card_remove op => intro w hw; simp [opWritesPerm] at hw
  | other which => intro w hw; simp [opWritesPerm] at hw

theorem histWritesCC_good (b : SignedBlock) :
    ∀ (hist : List (Option AppliedOperation)),
      ∀ w ∈ histWritesCC b hist, goodKW CCPatch.apply (toKW w) := by
  intro hist
  induction hist with
  | nil => intro w hw; simp [histWritesCC] at hw
  | cons o rest ih =>
    cases o with
    | none => exact ih
    | some aop =>
      intro w hw
      rcases List.mem_append.mp hw with h1 | h1
      · exact opWritesCC_good b aop w h1
      · exact ih w h1

theorem histWritesPerm_good (b : SignedBlock) :
    ∀ (hist : List (Option AppliedOperation)),
      ∀ w ∈ histWritesPerm b hist, goodKW PermPatch.apply (toKW w) := by
  intro hist
  induction hist with
  | nil => intro w hw; simp [histWritesPerm] at hw
  | cons o rest ih =>
    cases o with
    | none => exact ih
    | some aop =>
      intro w hw
      rcases List.mem_append.mp hw with h1 | h1
      · exact opWritesPerm_good b aop w h1
      · exact ih w h1

theorem kpres_opWritesCC (b : SignedBlock) (aop : AppliedOperation) (s : State) (k : String)
    (hop : removesOkOp s aop = true) :
    kpres CCPatch.apply (findRow s.content_cards k) (perKey k (opWritesCC b aop)) = true := by
  obtain ⟨o, res, tib⟩ := aop
  cases o with
  | content_card_create op =>
    rw [show opWritesCC b ⟨.content_card_create op, res, tib⟩ =
        [.upsert (fallbackId (get_object_id_from_result res) (trxIdOf b tib))
          (ccCreateFresh op b.block_num b.timestamp (trxIdOf b tib)) (ccCreatePatch op)]
      from rfl, perKey_cons]
    by_cases hk : keyOfWrite (Write.upsert (fallbackId (get_object_id_from_result res)
        (trxIdOf b tib)) (ccCreateFresh op b.block_num b.timestamp (trxIdOf b tib))
        (ccCreatePatch op)) = k
    · rw [if_pos hk]
      exact kpres_single_ups _ _ _ _
    · rw [if_neg hk]
      rfl
  | content_card_update op =>
    rw [show opWritesCC b ⟨.content_card_update op, res, tib⟩ =
        [.upsert (fallbackId (get_object_id_from_result res) (trxIdOf b tib))
          (ccUpdateFresh op b.block_num b.timestamp (trxIdOf b tib))
          (ccUpdatePatch op b.block_num b.timestamp)]
      from rfl, perKey_cons]
    by_cases hk : keyOfWrite (Write.upsert (fallbackId (get_object_id_from_result res)
        (trxIdOf b tib)) (ccUpdateFresh op b.block_num b.timestamp (trxIdOf b tib))
        (ccUpdatePatch op b.block_num b.timestamp)) = k
    · rw [if_pos hk]
      exact kpres_single_ups _ _ _ _
    · rw [if_neg hk]
      rfl
  | content_card_remove op =>
    rw [show opWritesCC b ⟨.content_card_remove op, res, tib⟩ =
        [.update op.content_id (ccRemovePatch b.block_num b.timestamp)] from rfl, perKey_cons]
    by_cases hk : keyOfWrite (Write.update (ρ := ContentRow) op.content_id
        (ccRemovePatch b.block_num b.timestamp)) = k
    · rw [if_pos hk]
      have hk2 : op.content_id = k := hk
      subst hk2
      have hop2 : (findRow s.content_cards op.content_id).isSome = true := hop
      obtain ⟨r, hr⟩ := Option.isSome_iff_exists.mp hop2
      rw [hr]
      rfl
    · rw [if_neg hk]
      rfl
  | permission_create op => rfl
  | permission_remove op => rfl
  | permission_create_many op => rfl
  | other which => rfl

theorem kpres_opWritesPerm (b : SignedBlock) (aop : AppliedOperation) (s : State) (k : String)
    (hop : removesOkOp s aop = true) :
    kpres PermPatch.apply (findRow s.permissions k) (perKey k (opWritesPerm b aop)) = true := by
  obtain ⟨o, res, tib⟩ := aop
  cases o with
  | permission_create op =>
    rw [show opWritesPerm b ⟨.permission_create op, res, tib⟩ =
        [.upsert (fallbackId (get_object_id_from_result res) (trxIdOf b tib))
          (permCreateFresh op b.block_num b.timestamp (trxIdOf b tib)) (permCreatePatch op)]
      from rfl, perKey_cons]
    by_cases hk : keyOfWrite (Write.upsert (fallbackId (get_object_id_from_result res)
        (trxIdOf b tib)) (permCreateFresh op b.block_num b.timestamp (trxIdOf b tib))
        (permCreatePatch op)) = k
    · rw [if_pos hk]
      exact kpres_single_ups _ _ _ _
    · rw [if_neg hk]
      rfl
  | permission_remove op =>
    rw [show opWritesPerm b ⟨.permission_remove op, res, tib⟩ =
        [.update op.permission_id (permRemovePatch b.block_num b.timestamp)] from rfl,
      perKey_cons]
    by_cases hk : keyOfWrite (Write.update (ρ := PermRow) op.permission_id
        (permRemovePatch b.block_num b.timestamp)) = k
    · rw [if_pos hk]
      have hk2 : op.permission_id = k := hk
      subst hk2
      have hop2 : (findRow s.permissions op.permission_id).isSome = true := hop
      obtain ⟨r, hr⟩ := Option.isSome_iff_exists.mp hop2
      rw [hr]
      rfl
    · rw [if_neg hk]
      rfl
  | permission_create_many op =>
    exact kpres_all_ups PermPatch.apply _
      (perKey_all_ups k _
        (manyWritesAux_ups op.subject_account b.block_num b.timestamp (trxIdOf b tib)
          (newObjectsFromResult res) op.permissions 0)) _
  | content_card_create op => rfl
  | content_card_update op => rfl
  | content_card_remove op => rfl
  | other which => rfl

theorem removesOk_kpres (b : SignedBlock) :
    ∀ (hist : List (Option AppliedOperation)) (s : State), removesOk b s hist = true →
      ∀ k : String,
      kpres CCPatch.apply (findRow s.content_cards k)
        (perKey k (histWritesCC b hist)) = true ∧
      kpres PermPatch.apply (findRow s.permissions k)
        (perKey k (histWritesPerm b hist)) = true := by
  intro hist
  induction hist with
  | nil => intro s _ k; exact ⟨rfl, rfl⟩
  | cons o rest ih =>
    intro s hok k
    cases o with
    | none => exact ih s hok k
    | some aop =>
      rw [show removesOk b s (some aop :: rest) =
          (removesOkOp s aop && removesOk b (applyOperation b aop s) rest) from rfl,
        Bool.and_eq_true] at hok
      obtain ⟨hop, hrest⟩ := hok
      have IH := ih (applyOperation b aop s) hrest k
      constructor
      · rw [show histWritesCC b (some aop :: rest) =
            opWritesCC b aop ++ histWritesCC b rest from rfl, perKey_append]
        apply kpres_append_true
        · exact kpres_opWritesCC b aop s k hop
        · rw [← findRow_applyWrites]
          have e : applyWrites CCPatch.apply s.content_cards (opWritesCC b aop) =
              (applyOperation b aop s).content_cards := by
            rw [applyOperation_writes]
          rw [e]
          exact IH.1
      · rw [show histWritesPerm b (some aop :: rest) =
            opWritesPerm b aop ++ histWritesPerm b rest from rfl, perKey_append]
        apply kpres_append_true
        · exact kpres_opWritesPerm b aop s k hop
        · rw [← findRow_applyWrites]
          have e : applyWrites PermPatch.apply s.permissions (opWritesPerm b aop) =
              (applyOperation b aop s).permissions := by
            rw [applyOperation_writes]
          rw [e]
          exact IH.2

/-- C1 is refuted at this input: the block removes `1.7.3` (a no-op, the row is
absent) and then creates it.  Projecting the block once leaves the row with
`is_removed = false`; projecting the same block twice leaves it with
`is_removed = true`, because on replay the remove now finds the row and the
create's conflict clause does not reset the soft-delete flag. -/
theorem replay_not_idempotent_counterexample :
    (findRow (on_block 0 blkA histRemoveCreate
        (on_block 0 blkA histRemoveCreate ⟨[], []⟩)).content_cards "1.7.3").map
      ContentRow.is_removed = some true ∧
    (findRow (on_block 0 blkA histRemoveCreate ⟨[], []⟩).content_cards "1.7.3").map
      ContentRow.is_removed = some false := by
  exact ⟨by decide, by decide⟩

/-- C1 (amended): for a finalized block at or above the start-block threshold,
provided every remove applied during the first projection finds an existing row
with its id, projecting the block twice leaves, for every content-card id and
every permission id, the same final row as projecting it once. -/
theorem replay_idempotent_of_removes_present (start_block : Nat) (b : SignedBlock)
    (hist : List (Option AppliedOperation)) (s : State)
    (hstart : start_block ≤ b.block_num) (hrem : removesOk b s hist = true) (k : String) :
    findRow (on_block start_block b hist (on_block start_block b hist s)).content_cards k =
      findRow (on_block start_block b hist s).content_cards k ∧
    findRow (on_block start_block b hist (on_block start_block b hist s)).permissions k =
      findRow (on_block start_block b hist s).permissions k := by
  have hnb : ¬ b.block_num < start_block := by omega
  have h1 := on_block_writes start_block b hist s hnb
  have h2 := on_block_writes start_block b hist (on_block start_block b hist s) hnb
  rw [h2, h1]
  dsimp only
  constructor
  · rw [findRow_applyWrites, findRow_applyWrites]
    exact krun_idem CCPatch.apply CCPatch.comp ccPid ccApply_pid ccComp_apply ccApply_idem
      ccApply_absorb (perKey k (histWritesCC b hist))
      (perKey_good CCPatch.apply k _ (histWritesCC_good b hist)) _
      ((removesOk_kpres b hist s hrem k).1)
  · rw [findRow_applyWrites, findRow_applyWrites]
    exact krun_idem PermPatch.apply PermPatch.comp permPid permApply_pid permComp_apply
      permApply_idem permApply_absorb (perKey k (histWritesPerm b hist))
      (perKey_good PermPatch.apply k _ (histWritesPerm_good b hist)) _
      ((removesOk_kpres b hist s hrem k).2)

theorem replay_idempotent_witness :
    findRow (on_block 0 blkA histOneCreate
        (on_block 0 blkA histOneCreate ⟨[], []⟩)).content_cards "1.7.3" =
      findRow (on_block 0 blkA histOneCreate ⟨[], []⟩).content_cards "1.7.3" ∧
    findRow (on_block 0 blkA histOneCreate
        (on_block 0 blkA histOneCreate ⟨[], []⟩)).permissions "1.7.3" =
      findRow (on_block 0 blkA histOneCreate ⟨[], []⟩).permissions "1.7.3" :=
  replay_idempotent_of_removes_present 0 blkA histOneCreate ⟨[], []⟩ (by decide) (by decide)
    "1.7.3"
